import Mathlib

/-!
# urlshort: path-to-redirect resolution with a fallback handler

A shallow embedding of `handler.go` (package `urlshort`): `MapHandler`,
`YAMLHandler`, `buildMap` and `parseYaml`.

* Go strings are Lean `String`s; equality is equality of the character sequences.
* A `map[string]string` is `GoMap`: the nil map, or an allocated table kept as a list of
  entries with one entry per key.
* The `http.ResponseWriter` is a mutable object in Go. Here its state is a value of a type
  `W` that is threaded through the calls. The code never looks inside the writer, so the
  embedding is generic in `W`.
* `http.Redirect` (package `net/http`) and `yaml.Unmarshal` (package `yaml.v2`) are library
  functions that are not part of the repository. They are parameters of the definitions
  that call them. `Recorder.Redirect` is `http.Redirect` as the library has it, on a
  response writer that records the response.
* A Go panic is the `Except.error` result of a handler.
-/

namespace urlshort

/-! ## Data model -/

/-- The constant `http.StatusFound`. -/
def StatusFound : Nat := 302

/-- The fields of `url.URL` that tell requests apart here. -/
structure URL where
  Path : String
  RawQuery : String
deriving DecidableEq, Repr

/-- An `*http.Request` as the HTTP server hands it to a handler: the request and its
`URL` are non-nil. -/
structure Request where
  Method : String
  URL : URL
  Header : List (String × String)
deriving DecidableEq, Repr

/-- The record type `yamlStruct` of `handler.go`. -/
structure yamlStruct where
  Path : String
  Url : String
deriving DecidableEq, Repr

/-- A Go `error` value (its message); the nil error is `none` of `Option error`. -/
abbrev error := String

/-- The value carried by a Go panic. -/
abbrev Panic := String

/-- A Go `[]byte`. -/
abbrev Bytes := List UInt8

/-! ## Go maps -/

/-- Reading key `k` in the entries of a table. -/
def getEntry : List (String × String) → String → Option String
  | [], _ => none
  | (k', v) :: rest, k => if k' = k then some v else getEntry rest k

/-- The entries of a table after the assignment `m[k] = v`: the value of an existing key is
replaced, a new key gets a new entry. -/
def setEntry : List (String × String) → String → String → List (String × String)
  | [], k, v => [(k, v)]
  | (k', v') :: rest, k, v =>
    if k' = k then (k, v) :: rest else (k', v') :: setEntry rest k v

/-- A value of type `map[string]string`. -/
inductive GoMap where
  | nil : GoMap
  | table (entries : List (String × String)) : GoMap
deriving DecidableEq, Repr

/-- The Go expression `make(map[string]string)`. -/
def GoMap.make : GoMap := GoMap.table []

/-- The Go expression `v, ok := m[k]`: `some v` when `ok`, `none` otherwise. Reading the nil
map is allowed in Go and finds nothing. -/
def GoMap.lookup : GoMap → String → Option String
  | GoMap.nil, _ => none
  | GoMap.table es, k => getEntry es k

/-- The keys of a map. -/
def GoMap.keys : GoMap → List String
  | GoMap.nil => []
  | GoMap.table es => es.map Prod.fst

/-- The Go expression `len(m)`. -/
def GoMap.len (m : GoMap) : Nat := m.keys.length

/-! ## Handlers -/

/-- The effect of `ServeHTTP(rw, r)` on the response writer, or a panic. -/
abbrev Handler (W : Type) := W → Request → Except Panic W

/-- The library function `http.Redirect(rw, r, url, code)`, seen as its effect on the
response writer. It has no error result. -/
abbrev RedirectFn (W : Type) := W → Request → String → Nat → W

/-- The method call `h.ServeHTTP(rw, r)` on a value of the interface type `http.Handler`.
Calling a method on the nil interface panics. -/
def ServeHTTP {W : Type} (h : Option (Handler W)) (rw : W) (r : Request) : Except Panic W :=
  match h with
  | none => Except.error "invalid memory address or nil pointer dereference"
  | some f => f rw r

/-- The function `MapHandler` of `handler.go`. The matched branch has no `return`: after the
`if`, control reaches `fallback.ServeHTTP(rw, r)` on both paths. -/
def MapHandler {W : Type} (Redirect : RedirectFn W) (pathsToUrls : GoMap)
    (fallback : Option (Handler W)) : Handler W :=
  fun rw r =>
    let path := r.URL.Path
    let rw :=
      match pathsToUrls.lookup path with
      | some dest => Redirect rw r dest StatusFound
      | none => rw
    ServeHTTP fallback rw r

/-- The function `buildMap` of `handler.go`. `mappings` is allocated by `make`, so the loop
state is the entry list of a non-nil table. -/
def buildMap (parsed : List yamlStruct) : GoMap :=
  GoMap.table (parsed.foldl (fun mappings v => setEntry mappings v.Path v.Url) [])

/-- The library function `yaml.Unmarshal(in, out)` for `out : *[]yamlStruct`: from the input
and the slice `out` points to, the slice it leaves there and the error it returns. -/
abbrev UnmarshalFn := Bytes → List yamlStruct → List yamlStruct × Option error

/-- The function `parseYaml` of `handler.go`. -/
def parseYaml (Unmarshal : UnmarshalFn) (yml : Bytes) : List yamlStruct × Option error :=
  let y : List yamlStruct := []
  match Unmarshal yml y with
  | (_, some err) => ([], some err)
  | (y, none) => (y, none)

/-- The function `YAMLHandler` of `handler.go`. The first component is the returned
`http.HandlerFunc` (`none` is the nil function), the second the returned error. -/
def YAMLHandler {W : Type} (Unmarshal : UnmarshalFn) (Redirect : RedirectFn W) (yml : Bytes)
    (fallback : Option (Handler W)) : Option (Handler W) × Option error :=
  match parseYaml Unmarshal yml with
  | (_, some err) => (none, some err)
  | (y, none) =>
    let pathMap := buildMap y
    (some (MapHandler Redirect pathMap fallback), none)

/-! ## Observers

Two response writers on which the handlers can be run and looked at. `Trace` records the
calls a handler makes on its collaborators; `Recorder` records the response. -/

/-- A call made on a collaborator, with the arguments it received besides the writer. -/
inductive Call where
  | Redirect (r : Request) (url : String) (code : Nat) : Call
  | ServeHTTP (r : Request) : Call
deriving DecidableEq, Repr

/-- A response writer that is the list of the calls made with it so far, oldest first. -/
abbrev Trace := List Call

/-- The stand-in for `http.Redirect` on a `Trace`: it records the call. -/
def Trace.Redirect : RedirectFn Trace :=
  fun rw r url code => rw ++ [Call.Redirect r url code]

/-- The fallback on a `Trace`: it records the call and returns. -/
def Trace.fallback : Handler Trace :=
  fun rw r => Except.ok (rw ++ [Call.ServeHTTP r])

/-- The target and status code of each call of `http.Redirect` in a trace, in order. -/
def redirectTargets : Trace → List (String × Nat)
  | [] => []
  | Call.Redirect _ url code :: rest => (url, code) :: redirectTargets rest
  | Call.ServeHTTP _ :: rest => redirectTargets rest

/-- The requests of the calls of the fallback in a trace, in order. -/
def fallbackCalls : Trace → List Request
  | [] => []
  | Call.Redirect _ _ _ :: rest => fallbackCalls rest
  | Call.ServeHTTP r :: rest => r :: fallbackCalls rest

/-- A response writer in the manner of `httptest.ResponseRecorder`. `HeaderMap` is the map
that the method `Header()` returns. The first call of `WriteHeader` sets `wroteHeader` and
fixes the response header: `Code` is its status and `Sent` its header fields. `Body` is what
has been written after it. -/
structure Recorder where
  HeaderMap : List (String × String)
  wroteHeader : Bool
  Code : Nat
  Sent : List (String × String)
  Body : String
deriving DecidableEq, Repr

/-- A recorder nothing has been written to. -/
def Recorder.fresh : Recorder := Recorder.mk [] false 0 [] ""

/-- The call `rw.Header().Set(k, v)`. -/
def Recorder.SetHeader (rw : Recorder) (k v : String) : Recorder :=
  Recorder.mk (setEntry rw.HeaderMap k v) rw.wroteHeader rw.Code rw.Sent rw.Body

/-- The method `WriteHeader(code)`. Only the first call sends the header; a later call
changes nothing. -/
def Recorder.WriteHeader (rw : Recorder) (code : Nat) : Recorder :=
  if rw.wroteHeader then rw else Recorder.mk rw.HeaderMap true code rw.HeaderMap rw.Body

/-- The method `Write(b)`: sends the header with status 200 when none was sent, then appends
to the body. -/
def Recorder.Write (rw : Recorder) (b : String) : Recorder :=
  let rw := rw.WriteHeader 200
  Recorder.mk rw.HeaderMap rw.wroteHeader rw.Code rw.Sent (rw.Body ++ b)

/-- The `Location` field of the response header that was sent. -/
def Recorder.Location (rw : Recorder) : Option String := getEntry rw.Sent "Location"

/-! ## The library function `http.Redirect`

What `net/http` does in `http.Redirect(w, r, url, code)`, after the source of the library:
the functions of `net/url`, `path` and `net/http` it goes through, on the characters of the
strings. All the characters these functions test for are ASCII. -/

/-- The part of a string before the first `c`, and the part after it (empty when there is no
`c`): `strings.Cut`. -/
def cutAt (c : Char) : List Char → List Char × List Char
  | [] => ([], [])
  | x :: rest => if x = c then ([], rest) else ((cutAt c rest).1.cons x, (cutAt c rest).2)

/-- Whether a string has an ASCII control character: `stringContainsCTLByte` of `net/url`. -/
def stringContainsCTLByte (s : List Char) : Bool :=
  s.any (fun c => c.toNat < 32 || c.toNat = 127)

/-- The function `ishex` of `net/url`. -/
def ishex (c : Char) : Bool :=
  (48 ≤ c.toNat && c.toNat ≤ 57) || (97 ≤ c.toNat && c.toNat ≤ 102)
    || (65 ≤ c.toNat && c.toNat ≤ 70)

/-- Whether a character is an ASCII letter. -/
def isLetter (c : Char) : Bool :=
  (97 ≤ c.toNat && c.toNat ≤ 122) || (65 ≤ c.toNat && c.toNat ≤ 90)

/-- Whether a character is an ASCII digit. -/
def isDigit (c : Char) : Bool := 48 ≤ c.toNat && c.toNat ≤ 57

/-- The loop of `getScheme` of `net/url` with `seen` the characters before the position of
the loop and the rest of `rawURL` after it. The result is the scheme and the rest, `none` is
the error "missing protocol scheme". -/
def getSchemeLoop (rawURL seen : List Char) : List Char → Option (List Char × List Char)
  | [] => some ([], rawURL)
  | c :: rest =>
    if isLetter c then getSchemeLoop rawURL (seen ++ [c]) rest
    else if isDigit c || c = '+' || c = '-' || c = '.' then
      if seen = [] then some ([], rawURL) else getSchemeLoop rawURL (seen ++ [c]) rest
    else if c = ':' then
      if seen = [] then none else some (seen, rest)
    else some ([], rawURL)

/-- The function `getScheme` of `net/url`. -/
def getScheme (rawURL : List Char) : Option (List Char × List Char) :=
  getSchemeLoop rawURL [] rawURL

/-- Whether `unescape` of `net/url` accepts the string in a mode other than the host modes:
every `%` is followed by two hexadecimal digits. -/
def validEscapes : List Char → Bool
  | [] => true
  | c :: rest =>
    if c = '%' then
      match rest with
      | h1 :: h2 :: rest2 => ishex h1 && ishex h2 && validEscapes rest2
      | _ => false
    else validEscapes rest

/-- The function `validUserinfo` of `net/url`. -/
def validUserinfo (s : List Char) : Bool :=
  s.all (fun c => isLetter c || isDigit c ||
    [45, 46, 95, 58, 126, 33, 36, 38, 39, 40, 41, 42, 43, 44, 59, 61, 37, 64].contains c.toNat)

/-- The part of a string after the last `c`, and the part before it; `none` when there is no
`c`: the split at `strings.LastIndex`. -/
def cutLast (c : Char) (s : List Char) : Option (List Char × List Char) :=
  if s.contains c then
    some ((cutAt c s.reverse).2.reverse, (cutAt c s.reverse).1.reverse)
  else none

/-- Whether `parseAuthority` of `net/url` returns no error and an empty host. `parseHost`
returns an error or a host that is not empty for every host part that is not empty, so the
host part is empty; the user information before the last `@`, when there is one, has to
pass `validUserinfo` and `unescape`. -/
def authorityWithoutHost (authority : List Char) : Bool :=
  match cutLast '@' authority with
  | none => authority.isEmpty
  | some (userinfo, host) =>
    host.isEmpty && validUserinfo userinfo &&
      (if userinfo.contains ':' then
        validEscapes (cutAt ':' userinfo).1 && validEscapes (cutAt ':' userinfo).2
      else validEscapes userinfo)

/-- Whether `url.Parse(url)` returns no error and a URL whose `Scheme` and `Host` are both
empty, which is the test of `http.Redirect` for a relative url. -/
def parsesAsRelative (url : List Char) : Bool :=
  let u := (cutAt '#' url).1
  let frag := (cutAt '#' url).2
  if stringContainsCTLByte u then false
  else if u = ['*'] then validEscapes frag
  else
    match getScheme u with
    | none => false
    | some (scheme, rest) =>
      if !scheme.isEmpty then false
      else
        let rest := (cutAt '?' rest).1
        if rest.head? != some '/' && (cutAt '/' rest).1.contains ':' then false
        else if rest.take 2 = ['/', '/'] && rest.take 3 != ['/', '/', '/'] then
          authorityWithoutHost ((rest.drop 2).takeWhile (fun c => c != '/'))
            && validEscapes ((rest.drop 2).dropWhile (fun c => c != '/'))
            && validEscapes frag
        else validEscapes rest && validEscapes frag

/-- The elements of a path between its slashes. -/
def splitSlash : List Char → List (List Char)
  | [] => [[]]
  | c :: rest =>
    if c = '/' then [] :: splitSlash rest
    else
      match splitSlash rest with
      | [] => [[c]]
      | seg :: segs => (c :: seg) :: segs

/-- One round of the loop of `path.Clean`, on the list of the elements written so far: an
empty element and `.` are dropped, `..` removes the element before it when there is one that
is not `..`, is dropped at the root, and is kept otherwise. -/
def cleanStep (rooted : Bool) (out : List (List Char)) (elem : List Char) :
    List (List Char) :=
  if elem = [] || elem = ['.'] then out
  else if elem = ['.', '.'] then
    match out.getLast? with
    | some top => if top = ['.', '.'] then out ++ [elem] else out.dropLast
    | none => if rooted then out else out ++ [elem]
  else out ++ [elem]

/-- The function `path.Clean`. -/
def pathClean (p : List Char) : List Char :=
  if p = [] then ['.']
  else
    let rooted := p.head? = some '/'
    let out := List.intercalate ['/'] ((splitSlash p).foldl (cleanStep rooted) [])
    if rooted then '/' :: out else if out = [] then ['.'] else out

/-- The directory part that `path.Split` returns: the path up to its last slash. -/
def pathDir (p : List Char) : List Char :=
  match cutLast '/' p with
  | none => []
  | some (dir, _) => dir ++ ['/']

/-- The part of a string from its first `?` on, empty when there is none. -/
def fromQuery (s : List Char) : List Char := s.dropWhile (fun c => c != '?')

/-- The url that `http.Redirect` goes on with: the block that makes a relative url absolute
with the path of the request and cleans it. -/
def redirectURL (requestPath : String) (url : String) : String :=
  if parsesAsRelative url.data then
    let oldpath := if requestPath = "" then "/".data else requestPath.data
    let url1 := if url.data.head? != some '/' then pathDir oldpath ++ url.data else url.data
    let path := (cutAt '?' url1).1
    let query := fromQuery url1
    let cleaned := pathClean path
    let cleaned :=
      if path.getLast? = some '/' && cleaned.getLast? != some '/' then cleaned ++ ['/']
      else cleaned
    String.mk (cleaned ++ query)
  else url

/-- The bytes of the UTF-8 encoding of a character. -/
def utf8Bytes (c : Char) : List Nat :=
  let v := c.toNat
  if v < 128 then [v]
  else if v < 2048 then [192 + v / 64, 128 + v % 64]
  else if v < 65536 then [224 + v / 4096, 128 + v / 64 % 64, 128 + v % 64]
  else [240 + v / 262144, 128 + v / 4096 % 64, 128 + v / 64 % 64, 128 + v % 64]

/-- A percent sign and the byte in base 16, for each byte. -/
def percentBytes : List Nat → List Char
  | [] => []
  | b :: rest => '%' :: (Nat.toDigits 16 b ++ percentBytes rest)

/-- The function `hexEscapeNonASCII` of `net/http` on the characters of a string: a byte that
is not ASCII becomes `%` and the byte in base 16. -/
def hexEscapeChars : List Char → List Char
  | [] => []
  | c :: rest =>
    if c.toNat < 128 then c :: hexEscapeChars rest
    else percentBytes (utf8Bytes c) ++ hexEscapeChars rest

/-- The function `hexEscapeNonASCII` of `net/http`. -/
def hexEscapeNonASCII (s : String) : String := String.mk (hexEscapeChars s.data)

/-- The function `htmlEscape` of `net/http` on the characters of a string. -/
def htmlEscapeChars : List Char → List Char
  | [] => []
  | c :: rest =>
    (if c = '&' then "&amp;".data
     else if c = '<' then "&lt;".data
     else if c = '>' then "&gt;".data
     else if c.toNat = 34 then "&#34;".data
     else if c.toNat = 39 then "&#39;".data
     else [c]) ++ htmlEscapeChars rest

/-- The function `htmlEscape` of `net/http`. -/
def htmlEscape (s : String) : String := String.mk (htmlEscapeChars s.data)

/-- The function `http.StatusText` on the codes of the class 3xx, the codes `http.Redirect`
is meant for; the empty string stands for the text of every other code. -/
def StatusText (code : Nat) : String :=
  if code = 300 then "Multiple Choices"
  else if code = 301 then "Moved Permanently"
  else if code = 302 then "Found"
  else if code = 303 then "See Other"
  else if code = 304 then "Not Modified"
  else if code = 305 then "Use Proxy"
  else if code = 307 then "Temporary Redirect"
  else if code = 308 then "Permanent Redirect"
  else ""

/-- The value of the `Location` header that `http.Redirect` sets for the url `url` and a
request with the path `requestPath`. -/
def redirectLocation (requestPath : String) (url : String) : String :=
  hexEscapeNonASCII (redirectURL requestPath url)

/-- The library function `http.Redirect` of `net/http` on a `Recorder`: it sets `Location`,
sets `Content-Type` for `GET` and `HEAD` when the header map has none, sends the header with
the status `code`, and for `GET` writes the short HTML body. -/
def Recorder.Redirect : RedirectFn Recorder :=
  fun w r url code =>
    let url := redirectURL r.URL.Path url
    let hadCT := (getEntry w.HeaderMap "Content-Type").isSome
    let w := w.SetHeader "Location" (hexEscapeNonASCII url)
    let w :=
      if !hadCT && (r.Method = "GET" || r.Method = "HEAD") then
        w.SetHeader "Content-Type" "text/html; charset=utf-8"
      else w
    let w := w.WriteHeader code
    if !hadCT && r.Method = "GET" then
      w.Write ("<a href=\"" ++ htmlEscape url ++ "\">" ++ StatusText code ++ "</a>.\n" ++ "\n")
    else w

/-- Whether `getScheme` finds a scheme in the url, taken without its fragment as `url.Parse`
does: a letter, then letters, digits, `+`, `-` or `.`, then a colon. -/
def hasScheme (url : String) : Bool :=
  match getScheme (cutAt '#' url.data).1 with
  | some (scheme, _) => !scheme.isEmpty
  | none => false

/-- Whether every character of the string is ASCII. -/
def isASCII (s : String) : Bool := s.data.all (fun c => c.toNat < 128)

/-- A call of a method of the response writer. -/
inductive Op where
  | SetHeader (k v : String) : Op
  | WriteHeader (code : Nat) : Op
  | Write (b : String) : Op
deriving DecidableEq, Repr

/-- The effect of one method call on a `Recorder`. -/
def Recorder.call (rw : Recorder) : Op → Recorder
  | Op.SetHeader k v => rw.SetHeader k v
  | Op.WriteHeader code => rw.WriteHeader code
  | Op.Write b => rw.Write b

/-- The effect of a sequence of method calls on a `Recorder`. -/
def Recorder.run (rw : Recorder) (ops : List Op) : Recorder := ops.foldl Recorder.call rw

/-- A handler that makes method calls on the writer, chosen from the state of the writer and
the request, and returns. -/
def methodCalls (prog : Recorder → Request → List Op) : Handler Recorder :=
  fun rw r => Except.ok (rw.run (prog rw r))

/-- The fallback of the scenario of section 8, which "returns 404 not found". -/
def notFound : Handler Recorder :=
  fun rw _ => Except.ok ((rw.WriteHeader 404).Write "not found")

/-- A fallback that panics. -/
def panicking : Handler Recorder :=
  fun _ _ => Except.error "fallback panic"

/-- A request with method `GET` for the path `p`. -/
def getRequest (p : String) : Request := Request.mk "GET" (URL.mk p "") []

/-- The calls that the handler for the mapping `M` makes on its collaborators when it serves
the request `r`, oldest first. -/
def callsOf (M : GoMap) (r : Request) : Except Panic Trace :=
  MapHandler Trace.Redirect M (some Trace.fallback) [] r

/-- A handler that reaches a `Recorder` through its methods cannot change a response header
that was sent: this is the property of such handlers that is used below. -/
def KeepsSentHeader (fb : Handler Recorder) : Prop :=
  ∀ rw r out, fb rw r = Except.ok out → rw.wroteHeader = true →
    out.wroteHeader = true ∧ out.Code = rw.Code ∧ out.Sent = rw.Sent

/-- The mapping of the scenario of section 8. -/
def goMapping : GoMap := GoMap.table [("/go", "https://golang.org")]

/-- A mapping whose destinations `http.Redirect` does not send as they are: a relative url,
the empty url, a path with a `..` element and a url with a character that is not ASCII. -/
def relativeMapping : GoMap :=
  GoMap.table [("/a/b", "c"), ("/go", ""), ("/up", "/a/../b"), ("/e", "https://example.com/é")]

/-- The record sequence `[{a,1},{b,2},{a,3}]` of section 8. -/
def abaRecords : List yamlStruct :=
  [yamlStruct.mk "a" "1", yamlStruct.mk "b" "2", yamlStruct.mk "a" "3"]

/-- A decoder that accepts the empty document only and then leaves the slice as it is. -/
def emptyOnly : UnmarshalFn :=
  fun yml y => if yml.isEmpty then (y, none) else (y, some "yaml: unmarshal errors")

/-- A decoder that yields the records of `abaRecords` for every document. -/
def abaDecoder : UnmarshalFn :=
  fun _ _ => (abaRecords, none)

/-! ## The reading of a record sequence in the specification -/

/-- The url of the last record of the sequence whose path is `k`, if there is one. This
follows the wording of the specification ("last write wins"), not the code. -/
def lastUrl (records : List yamlStruct) (k : String) : Option String :=
  ((records.filter (fun v => v.Path = k)).getLast?).map yamlStruct.Url

/-! ## Lemmas on maps -/

theorem getEntry_setEntry (m : List (String × String)) (k v k' : String) :
    getEntry (setEntry m k v) k' = if k = k' then some v else getEntry m k' := by
  induction m with
  | nil => simp [setEntry, getEntry]
  | cons e rest ih =>
    obtain ⟨a, b⟩ := e
    by_cases hak : a = k
    · by_cases hk : k = k'
      · simp [setEntry, getEntry, hak, hk]
      · have hak' : ¬ a = k' := fun h => hk (hak ▸ h)
        simp [setEntry, getEntry, hak, hk]
    · by_cases hk : k = k'
      · subst hk
        simp [setEntry, getEntry, hak, ih]
      · by_cases hak' : a = k'
        · subst hak'
          simp [setEntry, getEntry, hak, hk]
        · simp [setEntry, getEntry, hak, hak', hk, ih]

theorem getEntry_isSome_iff (es : List (String × String)) (k : String) :
    (∃ v, getEntry es k = some v) ↔ k ∈ es.map Prod.fst := by
  induction es with
  | nil => simp [getEntry]
  | cons e rest ih =>
    obtain ⟨a, b⟩ := e
    by_cases hak : a = k
    · simp [getEntry, hak]
    · have hka : ¬ k = a := fun h => hak h.symm
      simp only [getEntry, hak, if_false, ih, List.map_cons, List.mem_cons, hka, false_or]

theorem lookup_isSome_iff (M : GoMap) (k : String) :
    (∃ v, M.lookup k = some v) ↔ k ∈ M.keys := by
  cases M with
  | nil => simp [GoMap.lookup, GoMap.keys]
  | table es => simpa [GoMap.lookup, GoMap.keys] using getEntry_isSome_iff es k

theorem lastUrl_nil (k : String) : lastUrl [] k = none := by
  simp [lastUrl]

theorem lastUrl_cons (v : yamlStruct) (rest : List yamlStruct) (k : String) :
    lastUrl (v :: rest) k =
      match lastUrl rest k with
      | some u => some u
      | none => if v.Path = k then some v.Url else none := by
  unfold lastUrl
  by_cases hv : v.Path = k
  · simp only [List.filter_cons, hv, decide_True, if_true]
    cases hf : List.filter (fun v => decide (v.Path = k)) rest with
    | nil => rfl
    | cons x xs =>
      rw [List.getLast?_cons_cons, List.getLast?_eq_getLast _ (List.cons_ne_nil x xs)]
      rfl
  · have hfc : List.filter (fun v => decide (v.Path = k)) (v :: rest) =
        List.filter (fun v => decide (v.Path = k)) rest := by
      simp [List.filter_cons, hv]
    rw [hfc]
    cases (List.filter (fun v => decide (v.Path = k)) rest).getLast? <;> simp [hv]

theorem lastUrl_eq_none_iff (records : List yamlStruct) (k : String) :
    lastUrl records k = none ↔ ∀ v ∈ records, v.Path ≠ k := by
  induction records with
  | nil => simp [lastUrl_nil]
  | cons v rest ih =>
    rw [lastUrl_cons]
    cases h : lastUrl rest k with
    | some u =>
      have hne : ¬ ∀ v ∈ rest, v.Path ≠ k := fun hall => by
        rw [ih.mpr hall] at h; cases h
      constructor
      · intro h'
        cases h'
      · intro hall
        exact absurd (fun w hw => hall w (List.mem_cons_of_mem v hw)) hne
    | none =>
      have hall := ih.mp h
      by_cases hv : v.Path = k
      · simp [hv]
      · simpa [hv] using hall

theorem lastUrl_eq_some_iff (records : List yamlStruct) (k u : String) :
    lastUrl records k = some u ↔
      ∃ pre post, records = pre ++ yamlStruct.mk k u :: post ∧ ∀ v ∈ post, v.Path ≠ k := by
  constructor
  · intro h
    induction records with
    | nil => simp [lastUrl_nil] at h
    | cons v rest ih =>
      rw [lastUrl_cons] at h
      cases hr : lastUrl rest k with
      | some u' =>
        rw [hr] at h
        simp only [Option.some.injEq] at h
        subst h
        obtain ⟨pre, post, hrec, hpost⟩ := ih hr
        exact ⟨v :: pre, post, by rw [hrec]; rfl, hpost⟩
      | none =>
        rw [hr] at h
        by_cases hv : v.Path = k
        · simp only [hv, if_true, Option.some.injEq] at h
          refine ⟨[], rest, ?_, (lastUrl_eq_none_iff rest k).mp hr⟩
          cases v
          simp_all
        · simp [hv] at h
  · rintro ⟨pre, post, hrec, hpost⟩
    have hfil : List.filter (fun v => decide (v.Path = k)) post = [] := by
      rw [List.filter_eq_nil_iff]
      intro v hv
      simpa using hpost v hv
    subst hrec
    simp [lastUrl, List.filter_append, List.filter_cons, hfil]

theorem getEntry_foldl (records : List yamlStruct) (acc : List (String × String))
    (k : String) :
    getEntry (records.foldl (fun mappings v => setEntry mappings v.Path v.Url) acc) k =
      match lastUrl records k with
      | some u => some u
      | none => getEntry acc k := by
  induction records generalizing acc with
  | nil => simp [lastUrl_nil]
  | cons v rest ih =>
    rw [List.foldl_cons, ih, lastUrl_cons, getEntry_setEntry]
    cases lastUrl rest k <;> simp
    split <;> simp_all

theorem lookup_buildMap (records : List yamlStruct) (k : String) :
    (buildMap records).lookup k = lastUrl records k := by
  show getEntry _ k = _
  rw [getEntry_foldl]
  cases lastUrl records k <;> simp [getEntry]

theorem lookup_eq_none_iff (M : GoMap) (k : String) :
    M.lookup k = none ↔ k ∉ M.keys := by
  rw [← lookup_isSome_iff]
  cases M.lookup k <;> simp

theorem notFound_keepsSentHeader : KeepsSentHeader notFound := by
  intro rw r out hout hw
  simp only [notFound, Except.ok.injEq] at hout
  subst hout
  simp [Recorder.Write, Recorder.WriteHeader, hw]

theorem methodCalls_keepsSentHeader (prog : Recorder → Request → List Op) :
    KeepsSentHeader (methodCalls prog) := by
  have hcall : ∀ (w : Recorder) (op : Op), w.wroteHeader = true →
      (w.call op).wroteHeader = true ∧ (w.call op).Code = w.Code
        ∧ (w.call op).Sent = w.Sent := by
    intro w op hw
    cases op <;>
      simp [Recorder.call, Recorder.SetHeader, Recorder.WriteHeader, Recorder.Write, hw]
  have hrun : ∀ (ops : List Op) (w : Recorder), w.wroteHeader = true →
      (w.run ops).wroteHeader = true ∧ (w.run ops).Code = w.Code
        ∧ (w.run ops).Sent = w.Sent := by
    intro ops
    induction ops with
    | nil => intro w hw; exact ⟨hw, rfl, rfl⟩
    | cons op rest ih =>
      intro w hw
      obtain ⟨c1, c2, c3⟩ := hcall w op hw
      obtain ⟨r1, r2, r3⟩ := ih (w.call op) c1
      exact ⟨r1, r2.trans c2, r3.trans c3⟩
  intro rw r out hout hw
  simp only [methodCalls, Except.ok.injEq] at hout
  subst hout
  exact hrun _ rw hw

theorem hexEscapeChars_of_ascii (l : List Char)
    (h : l.all (fun c => c.toNat < 128) = true) : hexEscapeChars l = l := by
  induction l with
  | nil => rfl
  | cons c rest ih =>
    simp only [List.all_cons, Bool.and_eq_true, decide_eq_true_eq] at h
    simp only [hexEscapeChars, h.1, if_true, ih h.2]

theorem parsesAsRelative_of_hasScheme (url : String) (h : hasScheme url = true) :
    parsesAsRelative url.data = false := by
  unfold hasScheme at h
  unfold parsesAsRelative
  simp only []
  split
  · rfl
  · split
    · rename_i hstar
      rw [hstar] at h
      simp [getScheme, getSchemeLoop, isLetter, isDigit] at h
    · cases hg : getScheme (cutAt '#' url.data).1 with
      | none => rfl
      | some sr =>
        obtain ⟨scheme, rest⟩ := sr
        rw [hg] at h
        simp only [] at h
        simp only [h, if_true]

theorem redirectLocation_of_hasScheme (requestPath url : String)
    (hs : hasScheme url = true) (ha : isASCII url = true) :
    redirectLocation requestPath url = url := by
  unfold redirectLocation redirectURL hexEscapeNonASCII
  rw [parsesAsRelative_of_hasScheme url hs]
  simp only [Bool.false_eq_true, if_false]
  rw [hexEscapeChars_of_ascii _ ha]

theorem Recorder_Redirect_sent (w : Recorder) (r : Request) (url : String) (code : Nat)
    (hw : w.wroteHeader = false) :
    (Recorder.Redirect w r url code).wroteHeader = true ∧
    (Recorder.Redirect w r url code).Code = code ∧
    (Recorder.Redirect w r url code).Location
      = some (redirectLocation r.URL.Path url) := by
  have hne : ¬ "Location" = "Content-Type" := by decide
  unfold Recorder.Redirect redirectLocation
  simp only []
  split <;> split <;>
    simp [Recorder.WriteHeader, Recorder.SetHeader, Recorder.Write, Recorder.Location, hw,
      getEntry_setEntry, hne]

theorem MapHandler_of_some {W : Type} (Redirect : RedirectFn W) (M : GoMap)
    (fallback : Option (Handler W)) (rw : W) (r : Request) (dest : String)
    (h : M.lookup r.URL.Path = some dest) :
    MapHandler Redirect M fallback rw r =
      ServeHTTP fallback (Redirect rw r dest StatusFound) r := by
  simp only [MapHandler, h]

theorem MapHandler_of_none {W : Type} (Redirect : RedirectFn W) (M : GoMap)
    (fallback : Option (Handler W)) (rw : W) (r : Request)
    (h : M.lookup r.URL.Path = none) :
    MapHandler Redirect M fallback rw r = ServeHTTP fallback rw r := by
  simp only [MapHandler, h]

/-! ## The claims -/

/-- C1, as amended: when the path of the request is a key of the mapping, with value
`dest`, the handler calls `http.Redirect` on the incoming writer with the request, the url
`dest` and the status 302, once and before the fallback. On a recorder whose header has not
been sent, that call sends the response header with status 302 and with the `Location` that
`http.Redirect` derives from `dest` and the path of the request: it is `dest` itself when
`dest` is ASCII and has a scheme. The fallback runs next on that writer; a fallback that
leaves a sent header as it is, as every fallback that makes method calls on the writer and
returns does, returns a response with that status and `Location`. -/
theorem MapHandler_match_redirects {W : Type} (Redirect : RedirectFn W) (M : GoMap)
    (fallback : Option (Handler W)) (rw : W) (r : Request) (dest : String)
    (h : M.lookup r.URL.Path = some dest) :
    MapHandler Redirect M fallback rw r =
        ServeHTTP fallback (Redirect rw r dest StatusFound) r
    ∧ StatusFound = 302
    ∧ (∃ t, callsOf M r = Except.ok t ∧ redirectTargets t = [(dest, 302)]
        ∧ t.head? = some (Call.Redirect r dest 302))
    ∧ (∀ (fb : Handler Recorder) (w : Recorder), w.wroteHeader = false →
        MapHandler Recorder.Redirect M (some fb) w r
            = fb (Recorder.Redirect w r dest 302) r
        ∧ (Recorder.Redirect w r dest 302).wroteHeader = true
        ∧ (Recorder.Redirect w r dest 302).Code = 302
        ∧ (Recorder.Redirect w r dest 302).Location
            = some (redirectLocation r.URL.Path dest)
        ∧ (hasScheme dest = true → isASCII dest = true →
            (Recorder.Redirect w r dest 302).Location = some dest)
        ∧ (KeepsSentHeader fb → ∀ out,
            MapHandler Recorder.Redirect M (some fb) w r = Except.ok out →
              out.Code = 302 ∧ out.Location = some (redirectLocation r.URL.Path dest)))
    ∧ (∀ (prog : Recorder → Request → List Op) (w : Recorder), w.wroteHeader = false →
        ∃ out, MapHandler Recorder.Redirect M (some (methodCalls prog)) w r = Except.ok out
          ∧ out.Code = 302
          ∧ out.Location = some (redirectLocation r.URL.Path dest)
          ∧ (hasScheme dest = true → isASCII dest = true → out.Location = some dest)) := by
  have hrec : ∀ (fb : Handler Recorder) (w : Recorder), w.wroteHeader = false →
      MapHandler Recorder.Redirect M (some fb) w r
            = fb (Recorder.Redirect w r dest 302) r
      ∧ (KeepsSentHeader fb → ∀ out,
          MapHandler Recorder.Redirect M (some fb) w r = Except.ok out →
            out.Code = 302 ∧ out.Location = some (redirectLocation r.URL.Path dest)) := by
    intro fb w hw
    have heq : MapHandler Recorder.Redirect M (some fb) w r
        = fb (Recorder.Redirect w r dest 302) r :=
      MapHandler_of_some Recorder.Redirect M (some fb) w r dest h
    obtain ⟨h1, h2, h3⟩ := Recorder_Redirect_sent w r dest 302 hw
    refine ⟨heq, ?_⟩
    intro hk out hout
    rw [heq] at hout
    obtain ⟨_, k2, k3⟩ := hk _ r out hout h1
    refine ⟨by rw [k2, h2], ?_⟩
    unfold Recorder.Location at h3 ⊢
    rw [k3, h3]
  refine ⟨MapHandler_of_some Redirect M fallback rw r dest h, rfl, ?_, ?_, ?_⟩
  · refine ⟨[Call.Redirect r dest 302, Call.ServeHTTP r], ?_, rfl, rfl⟩
    unfold callsOf
    rw [MapHandler_of_some _ _ _ _ _ dest h]
    rfl
  · intro fb w hw
    obtain ⟨h1, h2, h3⟩ := Recorder_Redirect_sent w r dest 302 hw
    refine ⟨(hrec fb w hw).1, h1, h2, h3, ?_, (hrec fb w hw).2⟩
    intro hs ha
    rw [h3, redirectLocation_of_hasScheme _ dest hs ha]
  · intro prog w hw
    have heq := (hrec (methodCalls prog) w hw).1
    refine ⟨(Recorder.Redirect w r dest 302).run (prog (Recorder.Redirect w r dest 302) r),
      heq, ?_⟩
    obtain ⟨k1, k2⟩ := (hrec (methodCalls prog) w hw).2 (methodCalls_keepsSentHeader prog)
      _ heq
    refine ⟨k1, k2, ?_⟩
    intro hs ha
    rw [k2, redirectLocation_of_hasScheme _ dest hs ha]

/-- Witness of C1: the scenario of section 8; the request `/go` gets status 302 and the
`Location` of the mapping, with the fallback that returns 404. -/
theorem MapHandler_match_redirects_witness :
    goMapping.lookup (getRequest "/go").URL.Path = some "https://golang.org"
    ∧ hasScheme "https://golang.org" = true ∧ isASCII "https://golang.org" = true
    ∧ KeepsSentHeader notFound
    ∧ (∃ out, MapHandler Recorder.Redirect goMapping (some notFound) Recorder.fresh
          (getRequest "/go") = Except.ok out
        ∧ out.Code = 302
        ∧ out.Location = some (redirectLocation "/go" "https://golang.org")
        ∧ out.Location = some "https://golang.org") := by
  have hl : goMapping.lookup (getRequest "/go").URL.Path = some "https://golang.org" := by
    decide
  have hthm := (MapHandler_match_redirects Recorder.Redirect goMapping (some notFound)
    Recorder.fresh (getRequest "/go") "https://golang.org" hl).2.2.2.1 notFound
    Recorder.fresh rfl
  have hout := hthm.2.2.2.2.2 notFound_keepsSentHeader _ rfl
  exact ⟨hl, by decide, by decide, notFound_keepsSentHeader, _, rfl, hout.1, hout.2, rfl⟩

/-- C1 as stated fails: with the mapping `/a/b -> c` and the request `GET /a/b`, the handler
returns a response with status 302 whose `Location` is `/a/c`, not the value `c` of the
mapping; in the same way the empty url at `/go` gives `/`, the url `/a/../b` gives `/b`, and
a character that is not ASCII is sent as the bytes of its UTF-8 form in base 16. Further, on
a writer whose header was sent with status 200 the response keeps that status and has no
`Location`, and with a fallback that panics the handler panics. -/
theorem MapHandler_location_not_verbatim :
    relativeMapping.lookup (getRequest "/a/b").URL.Path = some "c"
    ∧ (∃ out, MapHandler Recorder.Redirect relativeMapping (some notFound) Recorder.fresh
          (getRequest "/a/b") = Except.ok out
        ∧ out.Code = 302 ∧ out.Location = some "/a/c"
        ∧ out.Location ≠ relativeMapping.lookup (getRequest "/a/b").URL.Path)
    ∧ ¬ (∀ out, MapHandler Recorder.Redirect relativeMapping (some notFound) Recorder.fresh
          (getRequest "/a/b") = Except.ok out → out.Location = some "c")
    ∧ relativeMapping.lookup "/go" = some ""
    ∧ (Recorder.Redirect Recorder.fresh (getRequest "/go") "" 302).Location = some "/"
    ∧ relativeMapping.lookup "/up" = some "/a/../b"
    ∧ (Recorder.Redirect Recorder.fresh (getRequest "/up") "/a/../b" 302).Location
        = some "/b"
    ∧ relativeMapping.lookup "/e" = some "https://example.com/é"
    ∧ (Recorder.Redirect Recorder.fresh (getRequest "/e") "https://example.com/é"
        302).Location = some "https://example.com/%c3%a9"
    ∧ (∃ out, MapHandler Recorder.Redirect goMapping (some notFound)
          (Recorder.fresh.WriteHeader 200) (getRequest "/go") = Except.ok out
        ∧ out.Code = 200 ∧ out.Location = none)
    ∧ MapHandler Recorder.Redirect goMapping (some panicking) Recorder.fresh
        (getRequest "/go") = Except.error "fallback panic" := by
  refine ⟨by decide, ⟨_, rfl, by decide, by decide, by decide⟩, ?_, by decide, by decide,
    by decide, by decide, by decide, by decide, ⟨_, rfl, by decide, by decide⟩, rfl⟩
  intro hall
  have hloc := hall _ rfl
  revert hloc
  decide

/-- C2: when the path of the request is not a key of the mapping, the handler is the call of
the fallback on the incoming writer with the request it received, so the response is the one
of the fallback; that call is the only call the handler makes, and `http.Redirect` is not
called. -/
theorem MapHandler_miss_is_fallback {W : Type} (Redirect : RedirectFn W) (M : GoMap)
    (fallback : Option (Handler W)) (rw : W) (r : Request)
    (h : r.URL.Path ∉ M.keys) :
    MapHandler Redirect M fallback rw r = ServeHTTP fallback rw r
    ∧ (∀ fb, fallback = some fb → MapHandler Redirect M fallback rw r = fb rw r)
    ∧ callsOf M r = Except.ok [Call.ServeHTTP r]
    ∧ (∀ t, callsOf M r = Except.ok t → redirectTargets t = [] ∧ fallbackCalls t = [r]) := by
  have hl : M.lookup r.URL.Path = none := (lookup_eq_none_iff M _).mpr h
  have hc : callsOf M r = Except.ok [Call.ServeHTTP r] := by
    unfold callsOf
    rw [MapHandler_of_none _ _ _ _ _ hl]
    rfl
  refine ⟨MapHandler_of_none Redirect M fallback rw r hl, ?_, hc, ?_⟩
  · intro fb hfb
    rw [MapHandler_of_none Redirect M fallback rw r hl, hfb]
    rfl
  · intro t ht
    rw [hc] at ht
    cases ht
    exact ⟨rfl, rfl⟩

/-- Witness of C2: the scenario of section 8; the request `/rust` gets the 404 of the
fallback. -/
theorem MapHandler_miss_is_fallback_witness :
    (getRequest "/rust").URL.Path ∉ goMapping.keys
    ∧ MapHandler Recorder.Redirect goMapping (some notFound) Recorder.fresh
        (getRequest "/rust") = notFound Recorder.fresh (getRequest "/rust")
    ∧ notFound Recorder.fresh (getRequest "/rust")
        = Except.ok (Recorder.mk [] true 404 [] "not found") := by
  have hk : (getRequest "/rust").URL.Path ∉ goMapping.keys := by decide
  exact ⟨hk, (MapHandler_miss_is_fallback Recorder.Redirect goMapping (some notFound)
    Recorder.fresh (getRequest "/rust") hk).2.1 notFound rfl, rfl⟩

/-- C3, the code at the failing input: for the request `/go`, whose path is a key of the
mapping, the handler calls `http.Redirect` and then the fallback too, and the recorder holds
the status and header of the redirect, with the body of the redirect followed by the body
the fallback wrote. -/
theorem MapHandler_match_writes_both :
    callsOf goMapping (getRequest "/go")
      = Except.ok [Call.Redirect (getRequest "/go") "https://golang.org" 302,
          Call.ServeHTTP (getRequest "/go")]
    ∧ MapHandler Recorder.Redirect goMapping (some notFound) Recorder.fresh (getRequest "/go")
      = Except.ok (Recorder.mk
          [("Location", "https://golang.org"), ("Content-Type", "text/html; charset=utf-8")]
          true 302
          [("Location", "https://golang.org"), ("Content-Type", "text/html; charset=utf-8")]
          "<a href=\"https://golang.org\">Found</a>.\n\nnot found")
    ∧ Recorder.Redirect Recorder.fresh (getRequest "/go") "https://golang.org" 302
      = Recorder.mk
          [("Location", "https://golang.org"), ("Content-Type", "text/html; charset=utf-8")]
          true 302
          [("Location", "https://golang.org"), ("Content-Type", "text/html; charset=utf-8")]
          "<a href=\"https://golang.org\">Found</a>.\n\n"
    ∧ notFound Recorder.fresh (getRequest "/go")
      = Except.ok (Recorder.mk [] true 404 [] "not found") :=
  ⟨rfl, rfl, rfl, rfl⟩

/-- C4: `buildMap` maps a path `k` to the url of the last record whose path is `k`, and has
no entry for `k` when no record has that path; the records `[{a,1},{b,2},{a,3}]` give the
mapping with the two entries `a -> 3` and `b -> 2`. -/
theorem buildMap_last_write_wins (records : List yamlStruct) (k : String) :
    (buildMap records).lookup k = lastUrl records k
    ∧ (∀ u, (buildMap records).lookup k = some u ↔
        ∃ pre post, records = pre ++ yamlStruct.mk k u :: post ∧ ∀ v ∈ post, v.Path ≠ k)
    ∧ ((buildMap records).lookup k = none ↔ ∀ v ∈ records, v.Path ≠ k)
    ∧ (k ∈ (buildMap records).keys ↔ ∃ v ∈ records, v.Path = k)
    ∧ buildMap abaRecords = GoMap.table [("a", "3"), ("b", "2")]
    ∧ (buildMap abaRecords).len = 2
    ∧ (buildMap abaRecords).lookup k
        = if k = "a" then some "3" else if k = "b" then some "2" else none := by
  have hl := lookup_buildMap records k
  have haba : buildMap abaRecords = GoMap.table [("a", "3"), ("b", "2")] := by decide
  refine ⟨hl, ?_, ?_, ?_, haba, ?_, ?_⟩
  · intro u
    rw [hl]
    exact lastUrl_eq_some_iff records k u
  · rw [hl]
    exact lastUrl_eq_none_iff records k
  · rw [← lookup_isSome_iff, hl]
    constructor
    · rintro ⟨u, hu⟩
      obtain ⟨pre, post, hrec, _⟩ := (lastUrl_eq_some_iff records k u).mp hu
      exact ⟨yamlStruct.mk k u, by rw [hrec]; simp, rfl⟩
    · rintro ⟨v, hv, hvk⟩
      cases hu : lastUrl records k with
      | some u => exact ⟨u, rfl⟩
      | none => exact absurd hvk ((lastUrl_eq_none_iff records k).mp hu v hv)
  · rw [haba]
    rfl
  · rw [haba]
    simp only [GoMap.lookup, getEntry]
    by_cases ha : k = "a"
    · subst ha
      simp
    · by_cases hb : k = "b"
      · subst hb
        simp
      · have ha' : ¬ "a" = k := fun h => ha h.symm
        have hb' : ¬ "b" = k := fun h => hb h.symm
        simp [ha, hb, ha', hb']

/-- C5: `buildMap` of the empty record sequence is the empty mapping, and a handler built
from it calls nothing but the fallback, for every fallback, writer and request. -/
theorem buildMap_nil_falls_through {W : Type} (Redirect : RedirectFn W)
    (fallback : Option (Handler W)) (rw : W) (r : Request) :
    buildMap [] = GoMap.make
    ∧ (buildMap []).len = 0
    ∧ (∀ k, (buildMap []).lookup k = none)
    ∧ MapHandler Redirect (buildMap []) fallback rw r = ServeHTTP fallback rw r
    ∧ (∀ fb, fallback = some fb → MapHandler Redirect (buildMap []) fallback rw r = fb rw r)
    ∧ callsOf (buildMap []) r = Except.ok [Call.ServeHTTP r] :=
  ⟨rfl, rfl, fun _ => rfl, rfl, fun _ hfb => by rw [hfb]; rfl, rfl⟩

/-- C6: `YAMLHandler` returns an error exactly when `parseYaml` does, which is exactly when
the decoder does; the error is the one of the decoder, and the handler is nil. When the
decoder returns no error, the error is nil and the handler is the `MapHandler` of the
mapping built from the decoded records. The handler is nil exactly when the error is not.
With a decoder that accepts the empty document only, a document of one byte gives the
error of the decoder and no handler, and the empty document gives a handler and no error. -/
theorem YAMLHandler_error_iff {W : Type} (Unmarshal : UnmarshalFn) (Redirect : RedirectFn W)
    (yml : Bytes) (fallback : Option (Handler W)) :
    ((YAMLHandler Unmarshal Redirect yml fallback).2 ≠ none ↔
        (parseYaml Unmarshal yml).2 ≠ none)
    ∧ ((parseYaml Unmarshal yml).2 ≠ none ↔ (Unmarshal yml []).2 ≠ none)
    ∧ (YAMLHandler Unmarshal Redirect yml fallback).2 = (parseYaml Unmarshal yml).2
    ∧ (YAMLHandler Unmarshal Redirect yml fallback).2 = (Unmarshal yml []).2
    ∧ ((YAMLHandler Unmarshal Redirect yml fallback).2 ≠ none →
        (YAMLHandler Unmarshal Redirect yml fallback).1 = none)
    ∧ ((YAMLHandler Unmarshal Redirect yml fallback).2 = none →
        (YAMLHandler Unmarshal Redirect yml fallback).1
          = some (MapHandler Redirect (buildMap (Unmarshal yml []).1) fallback))
    ∧ ((YAMLHandler Unmarshal Redirect yml fallback).1 = none ↔
        (YAMLHandler Unmarshal Redirect yml fallback).2 ≠ none)
    ∧ YAMLHandler emptyOnly Redirect [1] fallback = (none, some "yaml: unmarshal errors")
    ∧ YAMLHandler emptyOnly Redirect [] fallback
        = (some (MapHandler Redirect GoMap.make fallback), none) := by
  refine ⟨?_, ?_, ?_, ?_, ?_, ?_, ?_, rfl, rfl⟩ <;>
  · cases hu : Unmarshal yml [] with
    | mk y err =>
      cases err with
      | none => simp [YAMLHandler, parseYaml, hu]
      | some e => simp [YAMLHandler, parseYaml, hu]

/-- C7: when `parseYaml` decodes the document to the records `rs`, `YAMLHandler` returns the
handler `MapHandler (buildMap rs) fallback` and no error. That handler calls `http.Redirect`
with the url of the last record whose path is the path of the request, when there is such a
record, and calls the fallback only, when there is none. -/
theorem YAMLHandler_refines_MapHandler {W : Type} (Unmarshal : UnmarshalFn)
    (Redirect : RedirectFn W) (yml : Bytes) (fallback : Option (Handler W))
    (rs : List yamlStruct) (hdec : parseYaml Unmarshal yml = (rs, none)) :
    ∃ handler, YAMLHandler Unmarshal Redirect yml fallback = (some handler, none)
      ∧ handler = MapHandler Redirect (buildMap rs) fallback
      ∧ (∀ rw r pre u post, rs = pre ++ yamlStruct.mk r.URL.Path u :: post →
          (∀ v ∈ post, v.Path ≠ r.URL.Path) →
          handler rw r = ServeHTTP fallback (Redirect rw r u StatusFound) r
          ∧ callsOf (buildMap rs) r = Except.ok [Call.Redirect r u 302, Call.ServeHTTP r])
      ∧ (∀ rw r, (∀ v ∈ rs, v.Path ≠ r.URL.Path) →
          handler rw r = ServeHTTP fallback rw r
          ∧ callsOf (buildMap rs) r = Except.ok [Call.ServeHTTP r]) := by
  refine ⟨MapHandler Redirect (buildMap rs) fallback, ?_, rfl, ?_, ?_⟩
  · simp only [YAMLHandler, hdec]
  · intro rw r pre u post hrec hpost
    have hl : (buildMap rs).lookup r.URL.Path = some u := by
      rw [lookup_buildMap]
      exact (lastUrl_eq_some_iff rs _ u).mpr ⟨pre, post, hrec, hpost⟩
    refine ⟨MapHandler_of_some Redirect _ fallback rw r u hl, ?_⟩
    unfold callsOf
    rw [MapHandler_of_some _ _ _ _ _ u hl]
    rfl
  · intro rw r hno
    have hl : (buildMap rs).lookup r.URL.Path = none := by
      rw [lookup_buildMap]
      exact (lastUrl_eq_none_iff rs _).mpr hno
    refine ⟨MapHandler_of_none Redirect _ fallback rw r hl, ?_⟩
    unfold callsOf
    rw [MapHandler_of_none _ _ _ _ _ hl]
    rfl

/-- Witness of C7: a decoder that yields `[{a,1},{b,2},{a,3}]`. -/
theorem YAMLHandler_refines_MapHandler_witness :
    parseYaml abaDecoder [] = (abaRecords, none)
    ∧ ∃ handler, YAMLHandler abaDecoder Recorder.Redirect [] (some notFound)
          = (some handler, none)
        ∧ handler Recorder.fresh (getRequest "a")
          = Except.ok (Recorder.mk
              [("Location", "3"), ("Content-Type", "text/html; charset=utf-8")] true 302
              [("Location", "3"), ("Content-Type", "text/html; charset=utf-8")]
              "<a href=\"3\">Found</a>.\n\nnot found") := by
  have hdec : parseYaml abaDecoder [] = (abaRecords, none) := rfl
  obtain ⟨handler, h1, h2, _, _⟩ := YAMLHandler_refines_MapHandler abaDecoder
    Recorder.Redirect [] (some notFound) abaRecords hdec
  refine ⟨hdec, handler, h1, ?_⟩
  rw [h2]
  rfl

/-- C8: with a fallback that is not nil and whose call returns, the call of the handler
returns, for every mapping (the nil map and the empty map among them), writer and request,
and what it returns is what the fallback returned. The same holds for every handler that
`YAMLHandler` returns. Reading the nil map finds nothing. -/
theorem MapHandler_cannot_fail {W : Type} (Redirect : RedirectFn W) (M : GoMap)
    (fb : Handler W) (rw : W) (r : Request)
    (hfb : ∀ w, ∃ out, fb w r = Except.ok out) :
    (∃ out, MapHandler Redirect M (some fb) rw r = Except.ok out)
    ∧ (∀ e, MapHandler Redirect M (some fb) rw r ≠ Except.error e)
    ∧ (∃ w, MapHandler Redirect M (some fb) rw r = fb w r)
    ∧ MapHandler Redirect GoMap.nil (some fb) rw r = fb rw r
    ∧ MapHandler Redirect GoMap.make (some fb) rw r = fb rw r
    ∧ (∀ k, GoMap.nil.lookup k = none)
    ∧ (∀ (Unmarshal : UnmarshalFn) (yml : Bytes) (handler : Handler W),
        (YAMLHandler Unmarshal Redirect yml (some fb)).1 = some handler →
          ∃ out, handler rw r = Except.ok out) := by
  have hw : ∀ M : GoMap, ∃ w, MapHandler Redirect M (some fb) rw r = fb w r := by
    intro M
    cases hl : M.lookup r.URL.Path with
    | none => exact ⟨rw, MapHandler_of_none Redirect M (some fb) rw r hl⟩
    | some dest => exact ⟨_, MapHandler_of_some Redirect M (some fb) rw r dest hl⟩
  have hok : ∀ M : GoMap, ∃ out, MapHandler Redirect M (some fb) rw r = Except.ok out := by
    intro M
    obtain ⟨w, hw'⟩ := hw M
    obtain ⟨out, hout⟩ := hfb w
    exact ⟨out, hw'.trans hout⟩
  refine ⟨hok M, ?_, hw M, rfl, rfl, fun _ => rfl, ?_⟩
  · intro e he
    obtain ⟨out, hout⟩ := hok M
    rw [hout] at he
    cases he
  · intro Unmarshal yml handler hh
    cases hu : Unmarshal yml [] with
    | mk y err =>
      cases err with
      | some e => simp [YAMLHandler, parseYaml, hu] at hh
      | none =>
        simp only [YAMLHandler, parseYaml, hu, Option.some.injEq] at hh
        subst hh
        exact hok _

/-- Witness of C8: the fallback that returns 404, on the nil map. -/
theorem MapHandler_cannot_fail_witness :
    (∀ w, ∃ out, notFound w (getRequest "/go") = Except.ok out)
    ∧ ∃ out, MapHandler Recorder.Redirect GoMap.nil (some notFound) Recorder.fresh
        (getRequest "/go") = Except.ok out :=
  ⟨fun _ => ⟨_, rfl⟩,
    (MapHandler_cannot_fail Recorder.Redirect GoMap.nil notFound Recorder.fresh
      (getRequest "/go") (fun _ => ⟨_, rfl⟩)).1⟩

/-- C9: when the path of the request is a key of the mapping, with value `dest`, the handler
calls `http.Redirect` with `dest` and 302 and then calls the fallback, once, with the same
request and with the writer that `http.Redirect` left; these two calls, in this order, are
all the calls it makes. -/
theorem MapHandler_match_then_fallback {W : Type} (Redirect : RedirectFn W) (M : GoMap)
    (fb : Handler W) (rw : W) (r : Request) (dest : String)
    (h : M.lookup r.URL.Path = some dest) :
    MapHandler Redirect M (some fb) rw r = fb (Redirect rw r dest StatusFound) r
    ∧ callsOf M r = Except.ok [Call.Redirect r dest 302, Call.ServeHTTP r]
    ∧ (∀ t, callsOf M r = Except.ok t → fallbackCalls t = [r]) := by
  have hc : callsOf M r = Except.ok [Call.Redirect r dest 302, Call.ServeHTTP r] := by
    unfold callsOf
    rw [MapHandler_of_some _ _ _ _ _ dest h]
    rfl
  refine ⟨MapHandler_of_some Redirect M (some fb) rw r dest h, hc, ?_⟩
  intro t ht
  rw [hc] at ht
  cases ht
  rfl

/-- Witness of C9: the scenario of section 8 with the request `/go`. -/
theorem MapHandler_match_then_fallback_witness :
    goMapping.lookup (getRequest "/go").URL.Path = some "https://golang.org"
    ∧ callsOf goMapping (getRequest "/go")
      = Except.ok [Call.Redirect (getRequest "/go") "https://golang.org" 302,
          Call.ServeHTTP (getRequest "/go")] :=
  ⟨by decide, (MapHandler_match_then_fallback Trace.Redirect goMapping Trace.fallback []
    (getRequest "/go") "https://golang.org" (by decide)).2.1⟩

/-- C10: the handler calls `http.Redirect` exactly when the path of the request is equal, as
a string, to a key of the mapping, and the target is the value at that key; two requests
with the same path get the same redirect calls; with the key `/go`, the paths `/go/` and
`/GO` get no redirect, and `/go` with another method, query and header gets the same one. -/
theorem MapHandler_exact_match_only (M : GoMap) (r : Request) :
    (∃ t, callsOf M r = Except.ok t
      ∧ (redirectTargets t ≠ [] ↔ r.URL.Path ∈ M.keys)
      ∧ (redirectTargets t ≠ [] ↔ ∃ k ∈ M.keys, k.data = r.URL.Path.data)
      ∧ (∀ dest, M.lookup r.URL.Path = some dest → redirectTargets t = [(dest, 302)])
      ∧ (M.lookup r.URL.Path = none → redirectTargets t = []))
    ∧ (∀ r2 : Request, r2.URL.Path = r.URL.Path →
        Except.map redirectTargets (callsOf M r2) = Except.map redirectTargets (callsOf M r))
    ∧ callsOf goMapping (getRequest "/go/") = Except.ok [Call.ServeHTTP (getRequest "/go/")]
    ∧ callsOf goMapping (getRequest "/GO") = Except.ok [Call.ServeHTTP (getRequest "/GO")]
    ∧ Except.map redirectTargets
        (callsOf goMapping (Request.mk "POST" (URL.mk "/go" "x=1") [("Accept", "text/html")]))
      = Except.ok [("https://golang.org", 302)]
    ∧ Except.map redirectTargets (callsOf goMapping (getRequest "/go"))
      = Except.ok [("https://golang.org", 302)] := by
  have hmem : (∃ k ∈ M.keys, k.data = r.URL.Path.data) ↔ r.URL.Path ∈ M.keys := by
    constructor
    · rintro ⟨k, hk, hd⟩
      have : k = r.URL.Path := String.ext hd
      rwa [← this]
    · intro hk
      exact ⟨_, hk, rfl⟩
  refine ⟨?_, ?_, rfl, rfl, rfl, rfl⟩
  · cases hl : M.lookup r.URL.Path with
    | none =>
      have hk : r.URL.Path ∉ M.keys := (lookup_eq_none_iff M _).mp hl
      refine ⟨[Call.ServeHTTP r], ?_, ?_, ?_, ?_, ?_⟩
      · unfold callsOf
        rw [MapHandler_of_none _ _ _ _ _ hl]
        rfl
      · simp [redirectTargets, hk]
      · rw [hmem]
        simp [redirectTargets, hk]
      · intro dest hd
        cases hd
      · intro _
        rfl
    | some dest =>
      have hk : r.URL.Path ∈ M.keys := (lookup_isSome_iff M _).mp ⟨dest, hl⟩
      refine ⟨[Call.Redirect r dest 302, Call.ServeHTTP r], ?_, ?_, ?_, ?_, ?_⟩
      · unfold callsOf
        rw [MapHandler_of_some _ _ _ _ _ dest hl]
        rfl
      · simp [redirectTargets, hk]
      · rw [hmem]
        simp [redirectTargets, hk]
      · intro d hd
        cases hd
        rfl
      · intro hd
        cases hd
  · intro r2 h2
    have hcalls : ∀ q : Request, Except.map redirectTargets (callsOf M q)
        = Except.ok ((M.lookup q.URL.Path).toList.map (fun d => (d, 302))) := by
      intro q
      cases hl : M.lookup q.URL.Path with
      | none =>
        unfold callsOf
        rw [MapHandler_of_none _ _ _ _ _ hl]
        rfl
      | some dest =>
        unfold callsOf
        rw [MapHandler_of_some _ _ _ _ _ dest hl]
        rfl
    rw [hcalls r2, hcalls r, h2]

end urlshort
